import Mathlib

/-!
Verification of the layered-configuration core of this repository (config
resolution, project-root discovery, project identity extraction) and of two
concrete source modules
(`cumulusci/tasks/bulkdata/data_generation/output_streams.py` and
`cumulusci/tasks/qar/github.py`).

The configuration core (`core/config.py`) is exercised only through its
tests in `src/core/tests/test_config.py`; its implementation is not among
the shown sources, so those definitions are modelled from the spec, as
noted in their doc comments.
-/

namespace CumulusCI

/-- A configuration value: a scalar string or a nested string-keyed mapping.
Modelled from the spec: "Mapping — a nested, string-keyed associative
structure ... leaf values are scalars, lists, or further mappings"
(other scalar shapes are not needed by any claim). -/
inductive Value where
  | vStr : String → Value
  | vMap : List (String × Value) → Value

/-- First-match association lookup in one level of a Mapping
(keys are unique per level, per the spec's data model). -/
def lookupKey : List (String × Value) → String → Option Value
  | [], _ => none
  | (k, v) :: rest, key => if k = key then some v else lookupKey rest key

/-- Split a list of characters on the fixed double-underscore separator
token, keeping empty segments (so the result is always non-empty). -/
def splitSegs : List Char → List (List Char)
  | [] => [[]]
  | '_' :: '_' :: rest => [] :: splitSegs rest
  | c :: rest =>
    match splitSegs rest with
    | seg :: segs => (c :: seg) :: segs
    | [] => [[c]]

/-- Modelled from the spec (KeyPath derivation, `core/config.py` not under
`src/`): "an ordered sequence of string segments derived by splitting an
external key name on a fixed double-separator token", e.g.
`project__name` → `["project", "name"]`. -/
def splitKey (name : String) : List String :=
  (splitSegs name.toList).map fun l => String.mk l

/-- Modelled from the spec (KeyPath Resolver, `core/config.py` not under
`src/`): walk a KeyPath against a Mapping one segment at a time; at each
step, if the current container is not a mapping or the segment is absent,
resolution fails with `none` (absence is a normal outcome, never an
error); if all segments resolve, return the leaf value. A KeyPath of
length 0 is invalid and resolves to nothing. -/
def resolve (m : List (String × Value)) : List String → Option Value
  | [] => none
  | [k] => lookupKey m k
  | k :: rest =>
    match lookupKey m k with
    | some (Value.vMap m2) => resolve m2 rest
    | _ => none

mutual

/-- Modelled from the spec (LayeredConfig / `BaseConfig`, `core/config.py`
not under `src/`): a local nested Mapping, a flat defaults Mapping keyed
by the double-separator string form, and an ordered search path of
delegate configs queryable by the same protocol. -/
inductive BaseConfig where
  | mk : List (String × Value) → List (String × Value) → ConfigList → BaseConfig

/-- An ordered search path of delegate configs. -/
inductive ConfigList where
  | nil : ConfigList
  | cons : BaseConfig → ConfigList → ConfigList

end

def BaseConfig.config : BaseConfig → List (String × Value)
  | .mk c _ _ => c

def BaseConfig.defaults : BaseConfig → List (String × Value)
  | .mk _ d _ => d

def BaseConfig.search_path : BaseConfig → ConfigList
  | .mk _ _ sp => sp

def ConfigList.toList : ConfigList → List BaseConfig
  | .nil => []
  | .cons c rest => c :: rest.toList

mutual

/-- Modelled from the spec (`BaseConfig.get`, `core/config.py` not under
`src/`): resolve the name against the local Mapping via the KeyPath
Resolver (an explicit local value wins even if falsy or empty); otherwise
look the name up as a literal flat string key in the defaults Mapping;
otherwise delegate down the search path in declared order; otherwise
return the explicit no-value sentinel `none`. -/
def BaseConfig.get : BaseConfig → String → Option Value
  | .mk cfg dfl sp, name =>
    match resolve cfg (splitKey name) with
    | some v => some v
    | none =>
      match lookupKey dfl name with
      | some v => some v
      | none => getFromPath sp name

/-- Iterate the search path in declared order, recursively invoking `get`
on each delegate, returning the first non-absent result. -/
def getFromPath : ConfigList → String → Option Value
  | .nil, _ => none
  | .cons c rest, name =>
    match c.get name with
    | some v => some v
    | none => getFromPath rest name

end

/-- The first non-`none` entry of a list of optional values, scanning in
list order. -/
def firstSome (l : List (Option Value)) : Option Value :=
  l.foldr (fun o acc => match o with | some v => some v | none => acc) none

/-! ### Project-root discovery and project config loading

A directory is modelled as the list of its path segments with the deepest
segment first, so the parent directory is the tail and `[]` is the
filesystem root. -/

/-- Split a list of characters on `/`, keeping empty segments. -/
def splitOnSlash : List Char → List (List Char)
  | [] => [[]]
  | c :: rest =>
    if c = '/' then [] :: splitOnSlash rest
    else
      match splitOnSlash rest with
      | seg :: segs => (c :: seg) :: segs
      | [] => [[c]]

/-- The last segment of a non-empty segment list (`[]` for an empty one). -/
def lastSeg : List (List Char) → List Char
  | [] => []
  | [s] => s
  | _ :: rest => lastSeg rest

/-- Modelled from the spec (ProjectIdentity extraction, `core/config.py`
not under `src/`): "reads remote-origin configuration to extract a project
name (the final path segment of the remote URL, independent of URL
scheme)". -/
def parseRepoName (url : List Char) : List Char :=
  lastSeg (splitOnSlash url)

/-- An SSH-style remote URL `git@host:Owner/Name`, as written by the test
fixture `_create_git_config`. -/
def sshUrl (host owner name : List Char) : List Char :=
  "git@".toList ++ host ++ ':' :: owner ++ '/' :: name

/-- An HTTPS-style remote URL `https://host/Owner/Name`. -/
def httpsUrl (host owner name : List Char) : List Char :=
  "https://".toList ++ host ++ '/' :: owner ++ '/' :: name

/-- The filesystem facts the project config construction consults.
`projectFile dir = none` means the project configuration file is absent at
`dir`; `some m` means it is present and parses to the Mapping `m` (an
empty file parses to `some []`). `localOverride` is keyed by the derived
project name. -/
structure FileSys where
  hasRepoMeta : List String → Bool
  remoteUrl : List String → List Char
  projectFile : List String → Option (List (String × Value))
  localOverride : List Char → Option (List (String × Value))

/-- The two terminal construction errors of the project config. -/
inductive ConfigError where
  | notInProject
  | projectConfigNotFound
deriving DecidableEq

/-- Modelled from the spec (ProjectRootLocator, `core/config.py` not under
`src/`): walk upward from the working directory to the filesystem root,
returning the first directory holding repository metadata, or `none` when
no such directory exists on the path to the root. -/
def findRepoRoot (hasMeta : List String → Bool) : List String → Option (List String)
  | [] => if hasMeta [] then some [] else none
  | p@(_ :: parent) => if hasMeta p then some p else findRepoRoot hasMeta parent

/-- The working directory together with all its ancestors up to (and
including) the filesystem root. -/
def ancestorDirs : List String → List (List String)
  | [] => [[]]
  | p@(_ :: parent) => p :: ancestorDirs parent

/-- The successful result of constructing the project config. -/
structure ProjectConfig where
  project_name : List Char
  config_project : List (String × Value)
  config_project_local : List (String × Value)
  global_config : BaseConfig

/-- Modelled from the spec (`YamlProjectConfig` construction,
`core/config.py` not under `src/`): locate the repository root (failing
with `NotInProject` when none is found), require the project configuration
file at the root (failing with `ProjectConfigNotFound` when absent),
derive the project name from the remote-origin URL, and read the optional
project-local override file keyed by that name (absent → empty Mapping). -/
def loadProjectConfig (fs : FileSys) (global_config : BaseConfig) (cwd : List String) :
    Except ConfigError ProjectConfig :=
  match findRepoRoot fs.hasRepoMeta cwd with
  | none => .error .notInProject
  | some root =>
    match fs.projectFile root with
    | none => .error .projectConfigNotFound
    | some proj =>
      let name := parseRepoName (fs.remoteUrl root)
      .ok { project_name := name
            config_project := proj
            config_project_local := (fs.localOverride name).getD []
            global_config := global_config }

/-- Modelled from the spec (ProjectConfigSource composition): "build a
LayeredConfig whose local Mapping is the project-local override content,
whose search path is [project file content, global config] in that
order". -/
def ProjectConfig.toConfig (p : ProjectConfig) : BaseConfig :=
  .mk p.config_project_local []
    (.cons (.mk p.config_project [] .nil) (.cons p.global_config .nil))

/-! ### Concrete fixtures mirroring `src/core/tests/test_config.py` -/

/-- The project configuration file content written by
`_create_project_config`. -/
def testProjectYml : List (String × Value) :=
  [("project", .vMap [("name", .vStr "TestProject"), ("namespace", .vStr "testproject")])]

/-- The project-local override file content written in
`test_load_project_config_local`. -/
def testProjectLocalYml : List (String × Value) :=
  [("project", .vMap [("name", .vStr "TestProject2")])]

/-- A global config with a user-global override layer above a packaged
defaults layer, carrying keys private to each tier. -/
def testGlobalConfig : BaseConfig :=
  .mk [("gkey", .vStr "from-global-override"), ("both", .vStr "from-global-override")] []
    (.cons (.mk [("dkey", .vStr "from-packaged-defaults"), ("both", .vStr "from-packaged-defaults")] [] .nil) .nil)

/-- A filesystem mirroring `test_load_project_config_local`: repository
metadata at the project directory, the project file and a project-local
override keyed by the repo name parsed from the SSH remote URL. -/
def testFs : FileSys where
  hasRepoMeta := fun p => decide (p = ["proj"])
  remoteUrl := fun _ => sshUrl "github.com".toList "TestOwner".toList "TestRepo".toList
  projectFile := fun p => if p = ["proj"] then some testProjectYml else none
  localOverride := fun n => if n = "TestRepo".toList then some testProjectLocalYml else none

/-- A filesystem whose every directory holds repository metadata and whose
project file is present and empty everywhere. -/
def emptyFileFs : FileSys where
  hasRepoMeta := fun _ => true
  remoteUrl := fun _ => []
  projectFile := fun _ => some []
  localOverride := fun _ => none

/-! ### `OutputStream` (from
`src/cumulusci/tasks/bulkdata/data_generation/output_streams.py`) -/

/-- A row is a list of column-name/value pairs. -/
def Row : Type := List (String × String)

/-- The observable state of an `OutputStream`: its `count` field, the
number of times `flush` has run, and the rows written so far. -/
structure OutputStream where
  count : Nat
  flushCalls : Nat
  written : List (String × Row)

/-- `OutputStream.__init__`: the class attribute `count = 0` is read and
the instance attribute is set to `0 + 1`. -/
def OutputStream.init : OutputStream :=
  { count := 0 + 1, flushCalls := 0, written := [] }

/-- `flush` (as observed on the state: one more flush call). -/
def OutputStream.flush (s : OutputStream) : OutputStream :=
  { s with flushCalls := s.flushCalls + 1 }

/-- `write_single_row`: emit one row. -/
def OutputStream.write_single_row (s : OutputStream) (tablename : String) (row : Row) :
    OutputStream :=
  { s with written := s.written ++ [(tablename, row)] }

/-- `write_row`: write the row, then, if `count > 1000`, flush and reset
`count` to 0. `count` is never incremented here. -/
def OutputStream.write_row (s : OutputStream) (tablename : String) (row : Row) :
    OutputStream :=
  let s1 := s.write_single_row tablename row
  if s1.count > 1000 then { s1.flush with count := 0 } else s1

/-- Apply a sequence of `write_row` calls in order. -/
def OutputStream.write_rows (s : OutputStream) : List (String × Row) → OutputStream
  | [] => s
  | (t, r) :: ops => (s.write_row t r).write_rows ops

/-! ### `OrganizationReport` (from `src/cumulusci/tasks/qar/github.py`) -/

/-- The task options of `OrganizationReport` relevant here. -/
structure Options where
  organization : String
  output : String
  template : Option String
  repos : Option String

/-- The attributes `_init_options` sets on the task. -/
structure TaskState where
  template : String
  repos : Option String

/-- The default template path `os.path.join("tasks", "qar", "templates",
"github.html")`. -/
def defaultTemplatePath : String := "tasks/qar/templates/github.html"

/-- `_init_options`: `self.template = self.options.get("template") or
<default path>` (Python `or`: an absent or empty option falls back to the
default), and `self.repos` from the `repos` option. -/
def init_options (o : Options) : TaskState :=
  { template :=
      match o.template with
      | some t => if t = "" then defaultTemplatePath else t
      | none => defaultTemplatePath
    repos := o.repos }

/-- What `_report` writes: the output file at the `output` option's path,
holding the named template rendered over the fetched data. -/
structure ReportEffect (α : Type) where
  path : String
  templateUsed : String
  data : α

/-- `_report`: renders the fixed template `"github.html"` loaded from the
packaged templates directory; the `TaskState` produced by `_init_options`
is passed in but its `template` attribute is never consulted. -/
def OrganizationReport.report {α : Type} (_st : TaskState) (o : Options) (data : α) :
    ReportEffect α :=
  { path := o.output, templateUsed := "github.html", data := data }

/-- A full run as far as reporting is concerned: `_init_options` followed
by `_report` over externally fetched data. -/
def OrganizationReport.run {α : Type} (o : Options) (data : α) : ReportEffect α :=
  OrganizationReport.report (init_options o) o data

/-! ### Small concrete configs used in witnesses -/

/-- A config whose local Mapping holds an explicit empty-string value for
`foo` while the defaults and a delegate also define `foo`. -/
def cfgFalsyStr : BaseConfig :=
  .mk [("foo", .vStr "")] [("foo", .vStr "default")]
    (.cons (.mk [("foo", .vStr "other")] [] .nil) .nil)

/-- A config whose local Mapping holds an explicit empty mapping for `foo`
while the defaults also define `foo`. -/
def cfgEmptyMap : BaseConfig :=
  .mk [("foo", .vMap [])] [("foo", .vStr "default")] .nil

/-- A config where an ancestor segment of `foo__bar` exists locally but the
final segment is missing, and the defaults carry the flat key. -/
def cfgAncestorOnly : BaseConfig :=
  .mk [("foo", .vMap [])] [("foo__bar", .vStr "default")] .nil

/-- A config with empty local Mapping and defaults and a three-delegate
search path matching in the middle, mirroring
`test_getattr_search_path_match_middle`. -/
def cfgSearchMiddle : BaseConfig :=
  .mk [] []
    (.cons (.mk [] [] .nil)
      (.cons (.mk [("foo", .vStr "bar")] [] .nil)
        (.cons (.mk [("foo", .vStr "last")] [] .nil) .nil)))

/-! ### Helper lemmas -/

theorem resolve_nil : ∀ path : List String, resolve [] path = none
  | [] => rfl
  | [_] => rfl
  | _ :: _ :: _ => rfl

theorem BaseConfig.empty_get (K : String) : (BaseConfig.mk [] [] .nil).get K = none := by
  simp [BaseConfig.get, resolve_nil, lookupKey, getFromPath]

theorem getFromPath_eq_firstSome : ∀ (sp : ConfigList) (K : String),
    getFromPath sp K = firstSome (sp.toList.map fun d => d.get K)
  | .nil, _ => rfl
  | .cons c rest, K => by
    have ih := getFromPath_eq_firstSome rest K
    cases h : c.get K with
    | none => simp [getFromPath, ConfigList.toList, firstSome, h, ih]
    | some v => simp [getFromPath, ConfigList.toList, firstSome, h]

theorem splitOnSlash_ne_nil : ∀ l : List Char, splitOnSlash l ≠ []
  | [] => by simp [splitOnSlash]
  | c :: rest => by
    by_cases hc : c = '/'
    · simp [splitOnSlash, hc]
    · cases h : splitOnSlash rest with
      | nil => exact absurd h (splitOnSlash_ne_nil rest)
      | cons seg segs => simp [splitOnSlash, hc, h]

theorem splitOnSlash_append_len (xs rest : List Char) :
    2 ≤ (splitOnSlash (xs ++ '/' :: rest)).length := by
  induction xs with
  | nil =>
    have h : 0 < (splitOnSlash rest).length := List.length_pos.mpr (splitOnSlash_ne_nil rest)
    have e : splitOnSlash ([] ++ '/' :: rest) = [] :: splitOnSlash rest := by
      simp [splitOnSlash]
    rw [e, List.length_cons]
    omega
  | cons c xs ih =>
    by_cases hc : c = '/'
    · have h : 0 < (splitOnSlash (xs ++ '/' :: rest)).length :=
        List.length_pos.mpr (splitOnSlash_ne_nil _)
      have e : splitOnSlash ((c :: xs) ++ '/' :: rest) = [] :: splitOnSlash (xs ++ '/' :: rest) := by
        simp [splitOnSlash, hc]
      rw [e, List.length_cons]
      omega
    · cases h : splitOnSlash (xs ++ '/' :: rest) with
      | nil => exact absurd h (splitOnSlash_ne_nil _)
      | cons seg segs =>
        have e : splitOnSlash ((c :: xs) ++ '/' :: rest) = (c :: seg) :: segs := by
          simp [splitOnSlash, hc, h]
        rw [h, List.length_cons] at ih
        rw [e, List.length_cons]
        omega

theorem lastSeg_cons (a : List Char) (L : List (List Char)) (h : L ≠ []) :
    lastSeg (a :: L) = lastSeg L := by
  cases L with
  | nil => exact absurd rfl h
  | cons b t => rfl

theorem lastSeg_splitOnSlash_append (xs rest : List Char) :
    lastSeg (splitOnSlash (xs ++ '/' :: rest)) = lastSeg (splitOnSlash rest) := by
  induction xs with
  | nil =>
    simp only [List.nil_append, splitOnSlash, if_pos rfl]
    exact lastSeg_cons _ _ (splitOnSlash_ne_nil rest)
  | cons c xs ih =>
    simp only [List.cons_append, splitOnSlash]
    by_cases hc : c = '/'
    · rw [if_pos hc, lastSeg_cons _ _ (splitOnSlash_ne_nil _)]
      exact ih
    · rw [if_neg hc]
      cases h : splitOnSlash (xs ++ '/' :: rest) with
      | nil => exact absurd h (splitOnSlash_ne_nil _)
      | cons seg segs =>
        cases segs with
        | nil =>
          have hl := splitOnSlash_append_len xs rest
          rw [h] at hl
          simp at hl
        | cons seg2 segs2 =>
          rw [h] at ih
          exact ih

theorem splitOnSlash_no_slash (l : List Char) (h : '/' ∉ l) : splitOnSlash l = [l] := by
  induction l with
  | nil => rfl
  | cons c rest ih =>
    have hc : c ≠ '/' := fun e => h (e ▸ List.mem_cons_self c rest)
    have hr : '/' ∉ rest := fun m => h (List.mem_cons_of_mem c m)
    simp only [splitOnSlash, if_neg hc, ih hr]

theorem parseRepoName_after_slash (xs name : List Char) (h : '/' ∉ name) :
    parseRepoName (xs ++ '/' :: name) = name := by
  unfold parseRepoName
  rw [lastSeg_splitOnSlash_append, splitOnSlash_no_slash name h]
  rfl

theorem findRepoRoot_none_iff (h : List String → Bool) (p : List String) :
    findRepoRoot h p = none ↔ ∀ q ∈ ancestorDirs p, h q = false := by
  induction p with
  | nil =>
    by_cases hb : h [] = true
    · simp [findRepoRoot, ancestorDirs, hb]
    · simp only [Bool.not_eq_true] at hb
      simp [findRepoRoot, ancestorDirs, hb]
  | cons s parent ih =>
    by_cases hb : h (s :: parent) = true
    · simp [findRepoRoot, ancestorDirs, hb]
    · simp only [Bool.not_eq_true] at hb
      simp [findRepoRoot, ancestorDirs, hb, ih]

theorem write_row_no_flush (s : OutputStream) (t : String) (r : Row) (h : ¬ s.count > 1000) :
    s.write_row t r = { s with written := s.written ++ [(t, r)] } := by
  simp [OutputStream.write_row, OutputStream.write_single_row, h]

theorem write_rows_inv : ∀ (ops : List (String × Row)) (s : OutputStream), s.count ≤ 1000 →
    (s.write_rows ops).count = s.count ∧ (s.write_rows ops).flushCalls = s.flushCalls
  | [], _, _ => ⟨rfl, rfl⟩
  | (t, r) :: ops, s, h => by
    have hgt : ¬ s.count > 1000 := by omega
    have step := write_row_no_flush s t r hgt
    have ih := write_rows_inv ops (s.write_row t r) (by rw [step]; exact h)
    constructor
    · show ((s.write_row t r).write_rows ops).count = s.count
      rw [ih.1, step]
    · show ((s.write_row t r).write_rows ops).flushCalls = s.flushCalls
      rw [ih.2, step]

/-! ### Claim theorems -/

/-- Claim C1: for every key name K and every LayeredConfig, `get K` checks
the local Mapping first and, if K resolves there to a value V — including
a falsy or empty V — returns V, whatever the defaults Mapping or the
search-path delegates hold. -/
theorem local_value_wins (c : BaseConfig) (K : String) (V : Value)
    (h : resolve c.config (splitKey K) = some V) :
    c.get K = some V := by
  cases c with
  | mk cfg dfl sp =>
    have h2 : resolve cfg (splitKey K) = some V := h
    simp [BaseConfig.get, h2]

/-- Witness for C1, at an explicit empty-string value and an explicit
empty-mapping value that both shadow a default and a delegate. -/
theorem local_value_wins_witness :
    cfgFalsyStr.get "foo" = some (.vStr "") ∧
    cfgEmptyMap.get "foo" = some (.vMap []) :=
  ⟨local_value_wins cfgFalsyStr "foo" (.vStr "") rfl,
   local_value_wins cfgEmptyMap "foo" (.vMap []) rfl⟩

/-- Claim C2: with both a project file and a project-local override
present, the composed config has four tiers in order local-override,
project-file, global-override, global-defaults: `project__name` (defined
in both override and project file) resolves to the override's value,
`project__namespace` (only in the project file) to the project file's
value, and keys private to the global override or the packaged defaults
fall through to those tiers. -/
theorem projectConfig_four_tiers :
    ∃ p, loadProjectConfig testFs testGlobalConfig ["proj"] = .ok p ∧
      p.toConfig.get "project__name" = some (.vStr "TestProject2") ∧
      p.toConfig.get "project__namespace" = some (.vStr "testproject") ∧
      p.toConfig.get "gkey" = some (.vStr "from-global-override") ∧
      p.toConfig.get "dkey" = some (.vStr "from-packaged-defaults") ∧
      p.toConfig.get "both" = some (.vStr "from-global-override") :=
  ⟨{ project_name := "TestRepo".toList
     config_project := testProjectYml
     config_project_local := testProjectLocalYml
     global_config := testGlobalConfig },
   rfl, rfl, rfl, rfl, rfl, rfl⟩

/-- Claim C3: constructing the project config fails with `NotInProject`
exactly when no repository-metadata directory exists at or above the
working directory up to the filesystem root; fails with
`ProjectConfigNotFound` exactly when a root is found but the project
configuration file is absent there; and an empty (but present) project
configuration file yields an empty Mapping with no error. -/
theorem projectConfig_error_semantics (fs : FileSys) (g : BaseConfig) (cwd : List String) :
    (loadProjectConfig fs g cwd = .error .notInProject ↔
      ∀ q ∈ ancestorDirs cwd, fs.hasRepoMeta q = false) ∧
    (loadProjectConfig fs g cwd = .error .projectConfigNotFound ↔
      ∃ root, findRepoRoot fs.hasRepoMeta cwd = some root ∧ fs.projectFile root = none) ∧
    (∀ root, findRepoRoot fs.hasRepoMeta cwd = some root → fs.projectFile root = some [] →
      ∃ p, loadProjectConfig fs g cwd = .ok p ∧ p.config_project = []) := by
  refine ⟨?_, ?_, ?_⟩
  · rw [← findRepoRoot_none_iff]
    cases hr : findRepoRoot fs.hasRepoMeta cwd with
    | none => simp [loadProjectConfig, hr]
    | some root =>
      cases hp : fs.projectFile root with
      | none => simp [loadProjectConfig, hr, hp]
      | some proj => simp [loadProjectConfig, hr, hp]
  · cases hr : findRepoRoot fs.hasRepoMeta cwd with
    | none => simp [loadProjectConfig, hr]
    | some root =>
      cases hp : fs.projectFile root with
      | none => simp [loadProjectConfig, hr, hp]
      | some proj => simp [loadProjectConfig, hr, hp]
  · intro root hr hp
    exact ⟨{ project_name := parseRepoName (fs.remoteUrl root)
             config_project := []
             config_project_local := (fs.localOverride (parseRepoName (fs.remoteUrl root))).getD []
             global_config := g },
           by simp [loadProjectConfig, hr, hp], rfl⟩

/-- Witness for C3: on a filesystem whose root holds repository metadata
and a present-but-empty project file, construction succeeds with an empty
project Mapping. -/
theorem projectConfig_error_semantics_witness :
    ∃ p, loadProjectConfig emptyFileFs testGlobalConfig ["proj"] = .ok p ∧
      p.config_project = [] :=
  (projectConfig_error_semantics emptyFileFs testGlobalConfig ["proj"]).2.2 ["proj"] rfl rfl

/-- Claim C4: when K does not resolve through the local Mapping, `get K`
looks K up as a literal flat string key in the defaults Mapping and
returns that value if present — even when an ancestor segment of K exists
locally. -/
theorem defaults_consulted (c : BaseConfig) (K : String) (V : Value)
    (h1 : resolve c.config (splitKey K) = none)
    (h2 : lookupKey c.defaults K = some V) :
    c.get K = some V := by
  cases c with
  | mk cfg dfl sp =>
    have h1b : resolve cfg (splitKey K) = none := h1
    have h2b : lookupKey dfl K = some V := h2
    simp [BaseConfig.get, h1b, h2b]

/-- Witness for C4, at a local Mapping holding the ancestor `foo` as an
empty mapping while the defaults carry the flat key `foo__bar`. -/
theorem defaults_consulted_witness :
    resolve cfgAncestorOnly.config (splitKey "foo__bar") = none ∧
    cfgAncestorOnly.get "foo__bar" = some (.vStr "default") :=
  ⟨rfl, defaults_consulted cfgAncestorOnly "foo__bar" (.vStr "default") rfl rfl⟩

/-- Claim C5: when K is absent from the local Mapping and the defaults,
`get K` iterates the search path in declared order, recursively invoking
`get` on each delegate, and returns the first non-absent result; a
delegate that is an empty Mapping yields not-found and iteration
continues. -/
theorem search_path_first_match (c : BaseConfig) (K : String)
    (h1 : resolve c.config (splitKey K) = none)
    (h2 : lookupKey c.defaults K = none) :
    c.get K = firstSome (c.search_path.toList.map fun d => d.get K) ∧
    ∀ rest : ConfigList, getFromPath (.cons (.mk [] [] .nil) rest) K = getFromPath rest K := by
  constructor
  · cases c with
    | mk cfg dfl sp =>
      have h1b : resolve cfg (splitKey K) = none := h1
      have h2b : lookupKey dfl K = none := h2
      have hget : (BaseConfig.mk cfg dfl sp).get K = getFromPath sp K := by
        simp [BaseConfig.get, h1b, h2b]
      rw [hget]
      exact getFromPath_eq_firstSome sp K
  · intro rest
    have he : (BaseConfig.mk [] [] .nil).get K = none := BaseConfig.empty_get K
    simp [getFromPath, he]

/-- Witness for C5, on a three-delegate search path whose first delegate is
empty and whose middle delegate defines the key. -/
theorem search_path_first_match_witness :
    cfgSearchMiddle.get "foo" =
      firstSome (cfgSearchMiddle.search_path.toList.map fun d => d.get "foo") ∧
    getFromPath (.cons (.mk [] [] .nil) .nil) "foo" = getFromPath .nil "foo" :=
  ⟨(search_path_first_match cfgSearchMiddle "foo" rfl rfl).1,
   (search_path_first_match cfgSearchMiddle "foo" rfl rfl).2 .nil⟩

/-- Claim C6: `get K` on a LayeredConfig whose local Mapping, defaults and
search path are all empty returns the explicit no-value sentinel `none`,
which is distinct from any configured value — in particular from an
explicit empty string — so callers can tell "not configured" from
"configured as empty". -/
theorem empty_config_sentinel :
    (∀ K, (BaseConfig.mk [] [] .nil).get K = none) ∧
    (BaseConfig.mk [("foo", .vStr "")] [] .nil).get "foo" = some (.vStr "") ∧
    some (Value.vStr "") ≠ (none : Option Value) :=
  ⟨BaseConfig.empty_get, rfl, by simp⟩

/-- Claim C7: the KeyPath Resolver is total — it always returns either
`none` or a value, returns `none` whenever the probed Mapping is entirely
absent, whenever a segment is missing, and whenever the current container
is not a mapping, and resolves all-present paths to the leaf value (e.g.
`project__name` against `{"project": {"name": "X"}}` yields `"X"`). -/
theorem resolve_total_characterization :
    (∀ (m : List (String × Value)) (path : List String),
      resolve m path = none ∨ ∃ v, resolve m path = some v) ∧
    (∀ path : List String, resolve [] path = none) ∧
    (∀ (m : List (String × Value)) (k : String) (rest : List String),
      lookupKey m k = none → resolve m (k :: rest) = none) ∧
    (∀ (m m2 : List (String × Value)) (k : String) (rest : List String),
      rest ≠ [] → lookupKey m k = some (.vMap m2) → resolve m (k :: rest) = resolve m2 rest) ∧
    (∀ (m : List (String × Value)) (k s : String) (rest : List String),
      rest ≠ [] → lookupKey m k = some (.vStr s) → resolve m (k :: rest) = none) ∧
    (∀ (m : List (String × Value)) (k : String), resolve m [k] = lookupKey m k) ∧
    resolve [("project", .vMap [("name", .vStr "X")])] (splitKey "project__name") =
      some (.vStr "X") := by
  refine ⟨?_, resolve_nil, ?_, ?_, ?_, fun m k => rfl, rfl⟩
  · intro m path
    rcases h : resolve m path with _ | v
    · exact Or.inl rfl
    · exact Or.inr ⟨v, rfl⟩
  · intro m k rest h
    cases rest with
    | nil => exact h
    | cons r t =>
      have e : resolve m (k :: r :: t) =
          match lookupKey m k with
          | some (Value.vMap m2) => resolve m2 (r :: t)
          | _ => none := rfl
      rw [e, h]
  · intro m m2 k rest hne h
    cases rest with
    | nil => exact absurd rfl hne
    | cons r t =>
      have e : resolve m (k :: r :: t) =
          match lookupKey m k with
          | some (Value.vMap m2) => resolve m2 (r :: t)
          | _ => none := rfl
      rw [e, h]
  · intro m k s rest hne h
    cases rest with
    | nil => exact absurd rfl hne
    | cons r t =>
      have e : resolve m (k :: r :: t) =
          match lookupKey m k with
          | some (Value.vMap m2) => resolve m2 (r :: t)
          | _ => none := rfl
      rw [e, h]

/-- Witness for C7: the missing-segment, descend-into-mapping and
non-mapping-container implications at concrete inputs. -/
theorem resolve_total_characterization_witness :
    resolve [] ["a"] = none ∧
    resolve [("a", .vMap [("b", .vStr "c")])] ["a", "b"] =
      resolve [("b", .vStr "c")] ["b"] ∧
    resolve [("a", .vStr "s")] ["a", "b"] = none :=
  ⟨resolve_total_characterization.2.2.1 [] "a" [] rfl,
   resolve_total_characterization.2.2.2.1 [("a", .vMap [("b", .vStr "c")])]
     [("b", .vStr "c")] "a" ["b"] (by simp) rfl,
   resolve_total_characterization.2.2.2.2.1 [("a", .vStr "s")] "a" "s" ["b"] (by simp) rfl⟩

/-- Claim C8: ProjectIdentity extraction returns the final path segment of
the remote-origin URL for both URL schemes — `git@host:Owner/Name` and
`https://host/Owner/Name` both parse to `Name` — and the project config
construction keys the project-local override lookup by exactly that
name. -/
theorem parseRepoName_scheme_independent (host owner name : List Char) (h : '/' ∉ name) :
    parseRepoName (sshUrl host owner name) = name ∧
    parseRepoName (httpsUrl host owner name) = name ∧
    ∀ (fs : FileSys) (g : BaseConfig) (cwd root : List String)
      (proj : List (String × Value)),
      findRepoRoot fs.hasRepoMeta cwd = some root →
      fs.projectFile root = some proj →
      fs.remoteUrl root = sshUrl host owner name →
      loadProjectConfig fs g cwd =
        .ok { project_name := name
              config_project := proj
              config_project_local := (fs.localOverride name).getD []
              global_config := g } := by
  have hssh : parseRepoName (sshUrl host owner name) = name := by
    have e : sshUrl host owner name =
        ("git@".toList ++ host ++ ':' :: owner) ++ '/' :: name := by
      simp [sshUrl, List.append_assoc]
    rw [e]
    exact parseRepoName_after_slash _ name h
  refine ⟨hssh, ?_, ?_⟩
  · have e : httpsUrl host owner name =
        ("https://".toList ++ host ++ '/' :: owner) ++ '/' :: name := by
      simp [httpsUrl, List.append_assoc]
    rw [e]
    exact parseRepoName_after_slash _ name h
  · intro fs g cwd root proj hr hp hu
    simp [loadProjectConfig, hr, hp, hu, hssh]

/-- Witness for C8, at the test fixture's host, owner and repo name and at
the fixture filesystem of `test_load_project_config_local`. -/
theorem parseRepoName_scheme_independent_witness :
    parseRepoName (sshUrl "github.com".toList "TestOwner".toList "TestRepo".toList) =
      "TestRepo".toList ∧
    parseRepoName (httpsUrl "github.com".toList "TestOwner".toList "TestRepo".toList) =
      "TestRepo".toList ∧
    loadProjectConfig testFs testGlobalConfig ["proj"] =
      .ok { project_name := "TestRepo".toList
            config_project := testProjectYml
            config_project_local := (testFs.localOverride "TestRepo".toList).getD []
            global_config := testGlobalConfig } := by
  have h := parseRepoName_scheme_independent "github.com".toList "TestOwner".toList
    "TestRepo".toList (by decide)
  exact ⟨h.1, h.2.1, h.2.2 testFs testGlobalConfig ["proj"] ["proj"] testProjectYml rfl rfl rfl⟩

/-- Claim C9: an `OutputStream`'s `count` equals 1 after construction and
`write_row` never changes it (it only tests `count > 1000`), so the flush
branch inside `write_row` is unreachable and no sequence of `write_row`
calls ever invokes `flush`. -/
theorem write_row_never_flushes :
    OutputStream.init.count = 1 ∧
    ∀ ops : List (String × Row),
      (OutputStream.init.write_rows ops).count = 1 ∧
      (OutputStream.init.write_rows ops).flushCalls = 0 := by
  refine ⟨rfl, fun ops => ?_⟩
  have h := write_rows_inv ops OutputStream.init (by simp [OutputStream.init])
  simpa [OutputStream.init] using h

/-- Claim C10: the rendered organization report is independent of the
`template` task option — `_init_options` stores the option in
`self.template`, but `_report` always renders the fixed packaged template
`github.html`, so two runs differing only in that option produce the same
report. -/
theorem template_option_ignored :
    (∀ (α : Type) (data : α) (org out : String) (rep t1 t2 : Option String),
      OrganizationReport.run ⟨org, out, t1, rep⟩ data =
        OrganizationReport.run ⟨org, out, t2, rep⟩ data) ∧
    (init_options ⟨"org", "out", some "custom.html", none⟩).template = "custom.html" ∧
    (OrganizationReport.run ⟨"org", "out", some "custom.html", none⟩ ()).templateUsed =
      "github.html" :=
  ⟨fun _ _ _ _ _ _ _ => rfl, rfl, rfl⟩

end CumulusCI
